import Mathlib

/-!
Verification of the feature-engineering logic in the datmo-tutorials
repository: the Otto label normalization (otto-xgboost-R/notebook.Rmd)
and the Titanic cleaning pipeline
(kaggle-titanic/sdk/.ipynb_checkpoints/experimentation-checkpoint.ipynb).
All numeric columns are modelled over ℚ, missing values (NaN / NA) as
Option, and a raised exception as Option.none of the overall result.
-/

namespace Datmo

/-! ### Otto label normalization

R source: `y <- train[...] %>% gsub('Class_','',.) %>% {as.integer(.) -1}`.
`gsub` deletes every occurrence of the literal substring "Class_" in a
single left-to-right pass; `as.integer` parses the remaining string as a
number (optional sign, digits, optional fractional part, surrounding
spaces), truncating toward zero, and yields NA — not an error — when the
string does not parse.  Exponent notation accepted by R is not modelled;
no input considered here uses it. -/

/-- Single left-to-right pass deleting every occurrence of `"Class_"`,
as R's `gsub('Class_', '', .)` does on a fixed pattern. -/
def gsubClassTag : List Char → List Char
  | 'C' :: 'l' :: 'a' :: 's' :: 's' :: '_' :: rest => gsubClassTag rest
  | c :: rest => c :: gsubClassTag rest
  | [] => []

/-- Value of a digit string, most significant digit first. -/
def digitsToNat (l : List Char) : ℕ :=
  l.foldl (fun acc c => 10 * acc + (c.toNat - '0'.toNat)) 0

/-- Leading spaces removed. -/
def afterSpaces (s : String) : List Char :=
  s.data.dropWhile (fun c => c = ' ')

/-- Strip one optional sign character; the Bool records a leading minus. -/
def stripSign (l : List Char) : Bool × List Char :=
  if l.head? = some '-' then (true, l.tail)
  else if l.head? = some '+' then (false, l.tail)
  else (false, l)

/-- Parse digits with an optional fractional part and optional trailing
spaces; the value is the integer part (truncation toward zero). -/
def parseDigitsBody (neg : Bool) (l1 : List Char) : Option ℤ :=
  if (if (l1.dropWhile Char.isDigit).head? = some '.' then
        ((l1.dropWhile Char.isDigit).tail.dropWhile Char.isDigit).dropWhile
          (fun c => c = ' ')
      else
        (l1.dropWhile Char.isDigit).dropWhile (fun c => c = ' ')) = [] ∧
     (l1.takeWhile Char.isDigit ≠ [] ∨
       ((l1.dropWhile Char.isDigit).head? = some '.' ∧
         (l1.dropWhile Char.isDigit).tail.takeWhile Char.isDigit ≠ [])) then
    some (if neg then -(digitsToNat (l1.takeWhile Char.isDigit) : ℤ)
          else (digitsToNat (l1.takeWhile Char.isDigit) : ℤ))
  else
    none

/-- R's `as.integer` on a character value: optional surrounding spaces,
optional sign, digits with an optional fractional part; the value is
truncated toward zero.  An unparseable string yields NA (`none`), with a
coercion warning but no error. -/
def asInteger (s : String) : Option ℤ :=
  parseDigitsBody (stripSign (afterSpaces s)).1 (stripSign (afterSpaces s)).2

/-- The Otto label conversion `gsub('Class_','',.) %>% {as.integer(.) - 1}`;
`none` is R's NA propagated through the subtraction. -/
def classToIntegers (s : String) : Option ℤ :=
  (asInteger (String.mk (gsubClassTag s.data))).map (fun n => n - 1)

/-- Spec-side predicate: the string has exactly the form `"Class_<int>"`,
i.e. the literal tag followed by a nonempty run of digits. -/
def isClassForm (s : String) : Bool :=
  match s.data with
  | 'C' :: 'l' :: 'a' :: 's' :: 's' :: '_' :: rest =>
      !rest.isEmpty && rest.all Char.isDigit
  | _ => false

/-! ### Titanic feature-engineering pipeline

Source: the notebook's cleaning cells.  A dataframe is a `List Row`;
each cleaning cell is a row-wise transformation; NaN is `none`.  The
categorical `.map { ... }` dictionaries are if-chains; unmapped values
give `none` (pandas NaN), and a subsequent `.astype(int)` on a NaN is an
exception, modelled as `Option.none` of the whole conversion. -/

/-- A raw Titanic record with the derived columns added by the notebook
(initially absent). -/
structure Row where
  passengerId : ℕ
  survived : Option ℕ
  pclass : ℕ
  name : String
  sex : String
  age : Option ℚ
  sibsp : ℕ
  parch : ℕ
  ticket : String
  fare : Option ℚ
  cabin : Option String
  embarked : Option String
  familySize : Option ℕ := none
  isAlone : Option ℕ := none
  title : Option String := none

deriving instance DecidableEq for Row

/-- `[A-Za-z]` from the title regex. -/
def isLetterAZ (c : Char) : Bool :=
  ('A' ≤ c && c ≤ 'Z') || ('a' ≤ c && c ≤ 'z')

/-- Does the regex `' ([A-Za-z]+)\.'` match with the space at the head of
the current position, i.e. is the (greedy) letter run after the space
nonempty and immediately followed by a period? -/
def titleMatchAt (rest : List Char) : Bool :=
  !(rest.takeWhile isLetterAZ).isEmpty &&
    ((rest.dropWhile isLetterAZ).head? == some '.')

/-- `re.search(' ([A-Za-z]+)\.', name)`: leftmost position whose space is
followed by a letter run and a period; returns capture group 1. -/
def searchTitle : List Char → Option String
  | [] => none
  | c :: rest =>
    if (c == ' ') && titleMatchAt rest then
      some (String.mk (rest.takeWhile isLetterAZ))
    else
      searchTitle rest

/-- `get_title` from the notebook: the captured title, or `""` when the
regex does not match. -/
def get_title (name : String) : String :=
  (searchTitle name.data).getD ""

/-- Spec-side predicate: the name contains a "space, letter run, period"
occurrence somewhere. -/
def hasTitlePattern : List Char → Bool
  | [] => false
  | c :: rest => ((c == ' ') && titleMatchAt rest) || hasTitlePattern rest

/-- `{'female': 0, 'male': 1}` lookup. -/
def sexMap (s : String) : Option ℕ :=
  if s = "female" then some 0
  else if s = "male" then some 1
  else none

/-- `title_mapping = {"Mr": 1, "Miss": 2, "Mrs": 3, "Master": 4, "Rare": 5}`
lookup. -/
def title_mapping (s : String) : Option ℕ :=
  if s = "Mr" then some 1
  else if s = "Miss" then some 2
  else if s = "Mrs" then some 3
  else if s = "Master" then some 4
  else if s = "Rare" then some 5
  else none

/-- `.map(title_mapping)` followed by `.fillna(0)`: a missing title or an
unmapped title becomes code 0. -/
def titleCode (t : Option String) : ℕ :=
  (t.bind title_mapping).getD 0

/-- `{'S': 0, 'C': 1, 'Q': 2}` lookup. -/
def embarkedMap (s : String) : Option ℕ :=
  if s = "S" then some 0
  else if s = "C" then some 1
  else if s = "Q" then some 2
  else none

/-- Spec-side decoding table inverting `sexMap`. -/
def sexDecode (n : ℕ) : Option String :=
  if n = 0 then some "female"
  else if n = 1 then some "male"
  else none

/-- Spec-side decoding table inverting `embarkedMap`. -/
def embarkedDecode (n : ℕ) : Option String :=
  if n = 0 then some "S"
  else if n = 1 then some "C"
  else if n = 2 then some "Q"
  else none

/-- Spec-side decoding table inverting `title_mapping`. -/
def titleDecode (n : ℕ) : Option String :=
  if n = 1 then some "Mr"
  else if n = 2 then some "Miss"
  else if n = 3 then some "Mrs"
  else if n = 4 then some "Master"
  else if n = 5 then some "Rare"
  else none

/-- The `.replace([...], 'Rare')` list from the notebook. -/
def rareTitles : List String :=
  ["Lady", "Countess", "Capt", "Col", "Don", "Dr", "Major", "Rev", "Sir",
   "Jonkheer", "Dona"]

/-- The four sequential `.replace` calls on the Title column. -/
def groupTitle (s : String) : String :=
  let s1 := if s ∈ rareTitles then "Rare" else s
  let s2 := if s1 = "Mlle" then "Miss" else s1
  let s3 := if s2 = "Ms" then "Miss" else s2
  if s3 = "Mme" then "Mrs" else s3

/-- The four sequential `.loc` assignments binning Fare. -/
def mapFare (f : ℚ) : ℚ :=
  let f1 := if f ≤ 7.91 then 0 else f
  let f2 := if 7.91 < f1 ∧ f1 ≤ 14.454 then 1 else f1
  let f3 := if 14.454 < f2 ∧ f2 ≤ 31 then 2 else f2
  if 31 < f3 then 3 else f3

/-- The five sequential `.loc` assignments binning Age. -/
def mapAge (a : ℚ) : ℚ :=
  let a1 := if a ≤ 16 then 0 else a
  let a2 := if 16 < a1 ∧ a1 ≤ 32 then 1 else a1
  let a3 := if 32 < a2 ∧ a2 ≤ 48 then 2 else a2
  let a4 := if 48 < a3 ∧ a3 ≤ 64 then 3 else a3
  if 64 < a4 then 4 else a4

/-- Truncation toward zero, Python's `int()` applied to a number. -/
def ratTrunc (q : ℚ) : ℤ :=
  if 0 ≤ q then ⌊q⌋ else ⌈q⌉

/-- Support of legacy `np.random.randint(lo, hi)` with (float) arguments:
both bounds truncated toward zero, lower inclusive, upper exclusive. -/
def randintMem (lo hi : ℚ) (k : ℤ) : Prop :=
  ratTrunc lo ≤ k ∧ k < ratTrunc hi

instance randintMemDec (lo hi : ℚ) (k : ℤ) : Decidable (randintMem lo hi k) :=
  inferInstanceAs (Decidable (ratTrunc lo ≤ k ∧ k < ratTrunc hi))

/-- Every value of the random stream lies in the randint support. -/
def drawsIn (rnd : ℕ → ℤ) (lo hi : ℚ) : Prop :=
  ∀ k, randintMem lo hi (rnd k)

/-- Arithmetic mean (pandas `.mean()` over the listed values). -/
def qMean (l : List ℚ) : ℚ :=
  l.sum / (l.length : ℚ)

/-- Sample variance (square of pandas `.std()`, ddof = 1). -/
def sampleVar (l : List ℚ) : ℚ :=
  ((l.map (fun x => (x - qMean l) ^ 2)).sum) / ((l.length : ℚ) - 1)

/-- `FamilySize = SibSp + Parch + 1`. -/
def famSize (sibsp parch : ℕ) : ℕ :=
  sibsp + parch + 1

/-- `dataset['FamilySize'] = dataset['SibSp'] + dataset['Parch'] + 1`. -/
def stepFamilySize (rows : List Row) : List Row :=
  rows.map (fun r => { r with familySize := some (famSize r.sibsp r.parch) })

/-- `IsAlone = 0`, then `1` where `FamilySize == 1`. -/
def stepIsAlone (rows : List Row) : List Row :=
  rows.map (fun r =>
    { r with isAlone := some (if r.familySize = some 1 then 1 else 0) })

/-- `dataset['Embarked'].fillna('S')`. -/
def stepEmbarked (rows : List Row) : List Row :=
  rows.map (fun r => { r with embarked := some (r.embarked.getD "S") })

/-- `dataset['Fare'].fillna(train['Fare'].median())`; the train median is
a parameter. -/
def stepFareFill (median : ℚ) (rows : List Row) : List Row :=
  rows.map (fun r => { r with fare := some (r.fare.getD median) })

/-- The non-missing ages of a dataset, over which mean/std are taken. -/
def nonMissingAges (rows : List Row) : List ℚ :=
  rows.filterMap Row.age

/-- Assign the k-th random draw to the k-th missing age, as the boolean
mask assignment `dataset['Age'][np.isnan(...)] = age_null_random_list`
does. -/
def fillAges (rnd : ℕ → ℤ) : ℕ → List Row → List Row
  | _, [] => []
  | k, r :: rs =>
    match r.age with
    | some _ => r :: fillAges rnd k rs
    | none => { r with age := some ((rnd k : ℤ) : ℚ) } :: fillAges rnd (k + 1) rs

/-- The whole age imputation, draws numbered from 0. -/
def imputeAges (rnd : ℕ → ℤ) (rows : List Row) : List Row :=
  fillAges rnd 0 rows

/-- `dataset['Age'] = dataset['Age'].astype(int)`. -/
def stepAgeInt (rows : List Row) : List Row :=
  rows.map (fun r => { r with age := r.age.map (fun a => ((ratTrunc a : ℤ) : ℚ)) })

/-- `dataset['Title'] = dataset['Name'].apply(get_title)`. -/
def stepTitleExtract (rows : List Row) : List Row :=
  rows.map (fun r => { r with title := some (get_title r.name) })

/-- The rare-title grouping applied to the Title column. -/
def stepTitleGroup (rows : List Row) : List Row :=
  rows.map (fun r => { r with title := r.title.map groupTitle })

/-- A fully numeric record as handed to the model-fitting library; no
field is optional except the label, which the test set simply lacks. -/
structure FinalRow where
  survived : Option ℕ
  pclass : ℕ
  sex : ℕ
  age : ℚ
  fare : ℚ
  embarked : ℕ
  isAlone : ℕ
  title : ℕ

deriving instance DecidableEq for FinalRow

/-- The mapping cell of the cleaning loop for one row: sex, embarked and
title encodings, fare and age binning.  `none` models the exception
`.astype(int)` raises when a categorical value of the row is outside the
mapping domain or still missing. -/
def finalizeRow (r : Row) : Option FinalRow :=
  (sexMap r.sex).bind (fun sx =>
    (r.embarked.bind embarkedMap).bind (fun em =>
      r.age.bind (fun a =>
        r.fare.bind (fun f =>
          r.isAlone.map (fun ia =>
            { survived := r.survived, pclass := r.pclass, sex := sx,
              age := mapAge a, fare := mapFare f, embarked := em,
              isAlone := ia, title := titleCode r.title })))))

/-- Row-wise conversion of the cleaned dataframe, failing if any row
fails. -/
def mapRows : List Row → Option (List FinalRow)
  | [] => some []
  | r :: rs =>
    match finalizeRow r, mapRows rs with
    | some fr, some frs => some (fr :: frs)
    | _, _ => none

/-- All cleaning cells before the mapping loop, in notebook order. -/
def stagedRows (median : ℚ) (rnd : ℕ → ℤ) (rows : List Row) : List Row :=
  stepTitleGroup (stepTitleExtract (stepAgeInt (imputeAges rnd
    (stepFareFill median (stepEmbarked (stepIsAlone (stepFamilySize rows)))))))

/-- Second feature-selection variant:
`dataset['FarePerPerson'] = dataset['Fare']/(dataset['FamilySize']+1)`. -/
def farePerPerson (fare : ℚ) (fs : ℕ) : ℚ :=
  fare / ((fs : ℚ) + 1)

end Datmo

namespace Datmo

theorem gsubClassTag_of_all_digits (l : List Char) (h : ∀ c ∈ l, c.isDigit) :
    gsubClassTag l = l := by
  induction l with
  | nil => rfl
  | cons c rest ih =>
    have hc : c.isDigit := h c (List.mem_cons_self c rest)
    have hrest : gsubClassTag rest = rest :=
      ih (fun x hx => h x (List.mem_cons_of_mem c hx))
    have hcC : ¬ c = 'C' := by
      intro hEq
      rw [hEq] at hc
      exact absurd hc (by decide)
    rw [gsubClassTag.eq_def]
    split
    · rename_i heq
      exact absurd (List.cons.inj heq).1 hcC
    · rename_i heq
      obtain ⟨rfl, rfl⟩ := List.cons.inj heq
      rw [hrest]
    · rename_i heq
      exact absurd heq (List.cons_ne_nil c rest)

theorem parseDigitsBody_of_all_digits (l : List Char) (h1 : l ≠ [])
    (h2 : ∀ c ∈ l, c.isDigit) :
    parseDigitsBody false l = some (digitsToNat l : ℤ) := by
  have htake : l.takeWhile Char.isDigit = l :=
    List.takeWhile_eq_self_iff.mpr h2
  have hdrop : l.dropWhile Char.isDigit = [] :=
    List.dropWhile_eq_nil_iff.mpr h2
  unfold parseDigitsBody
  rw [htake, hdrop]
  simp [h1]

theorem stripSign_of_digit_head (l : List Char) (h1 : l ≠ [])
    (h2 : ∀ c ∈ l, c.isDigit) :
    stripSign l = (false, l) := by
  obtain ⟨c, rest, rfl⟩ := List.exists_cons_of_ne_nil h1
  have hc : c.isDigit := h2 c (List.mem_cons_self c rest)
  have hminus : ¬ ((c :: rest).head? = some '-') := by
    intro hEq
    rw [show c = '-' from Option.some.inj hEq] at hc
    exact absurd hc (by decide)
  have hplus : ¬ ((c :: rest).head? = some '+') := by
    intro hEq
    rw [show c = '+' from Option.some.inj hEq] at hc
    exact absurd hc (by decide)
  unfold stripSign
  rw [if_neg hminus, if_neg hplus]

theorem asInteger_of_all_digits (l : List Char) (h1 : l ≠ [])
    (h2 : ∀ c ∈ l, c.isDigit) :
    asInteger (String.mk l) = some (digitsToNat l : ℤ) := by
  have hspaces : afterSpaces (String.mk l) = l := by
    obtain ⟨c, rest, rfl⟩ := List.exists_cons_of_ne_nil h1
    have hc : c.isDigit := h2 c (List.mem_cons_self c rest)
    have hspace : ¬ (c = ' ') := by
      intro hEq; rw [hEq] at hc; exact absurd hc (by decide)
    unfold afterSpaces
    simp only [String.data]
    rw [List.dropWhile_cons, if_neg (by simpa using hspace)]
  unfold asInteger
  rw [hspaces, stripSign_of_digit_head l h1 h2]
  exact parseDigitsBody_of_all_digits l h1 h2

/-- C1 counterexample: the claim says every string not of the form
`"Class_<int>"` raises a format error rather than producing a value, but
the pipeline `gsub('Class_','',.) %>% {as.integer(.) - 1}` happily maps
the non-matching string `"7"` to the value `6` (and `as.integer` turns
unparseable strings into NA with a warning, never raising an error). -/
theorem otto_label_not_error_counterexample :
    isClassForm "7" = false ∧ classToIntegers "7" = some 6 := by
  constructor
  · rfl
  · rfl

/-- C1 (amended): the Otto label conversion maps `"Class_<n>"` to the
zero-based value `n - 1` (so `"Class_1"` to 0 and `"Class_9"` to 8), but
for other inputs it never raises a format error: it deletes every
occurrence of `"Class_"` and coerces the remainder, yielding the missing
value NA when the remainder is not numeric (e.g. `"foo"`) and a numeric
value otherwise. -/
theorem otto_label_amended (l : List Char) (h1 : l ≠ [])
    (h2 : l.all Char.isDigit = true) :
    classToIntegers (String.mk ('C' :: 'l' :: 'a' :: 's' :: 's' :: '_' :: l))
      = some ((digitsToNat l : ℤ) - 1) ∧
    classToIntegers "Class_1" = some 0 ∧
    classToIntegers "Class_9" = some 8 ∧
    classToIntegers "foo" = none := by
  have h2' : ∀ c ∈ l, c.isDigit := List.all_eq_true.mp h2
  refine ⟨?_, rfl, rfl, rfl⟩
  have hgsub1 :
      gsubClassTag ('C' :: 'l' :: 'a' :: 's' :: 's' :: '_' :: l)
        = gsubClassTag l := rfl
  unfold classToIntegers
  simp only [String.data]
  rw [hgsub1, gsubClassTag_of_all_digits l h2',
    asInteger_of_all_digits l h1 h2']
  rfl

/-- Witness for `otto_label_amended` at the digit list `['4','2']`. -/
theorem otto_label_amended_witness :
    (['4', '2'] : List Char) ≠ [] ∧
    (['4', '2'] : List Char).all Char.isDigit = true ∧
    classToIntegers
      (String.mk ('C' :: 'l' :: 'a' :: 's' :: 's' :: '_' :: ['4', '2']))
      = some ((digitsToNat ['4', '2'] : ℤ) - 1) :=
  ⟨by decide, by decide,
    (otto_label_amended ['4', '2'] (by decide) (by decide)).1⟩

end Datmo

namespace Datmo

/-- C2: fare and age bucketing use intervals closed on the upper edge
with the fixed boundaries 7.91 / 14.454 / 31 and 16 / 32 / 48 / 64: for
every fare, the sequential `.loc` assignments compute exactly the
piecewise bucket function (so a fare of exactly 7.91 lands in bucket 0,
(7.91, 14.454] in bucket 1, (14.454, 31] in bucket 2, above 31 in
bucket 3), and likewise for every age with codes 0-4. -/
theorem fare_age_bucket_edges (f a : ℚ) :
    mapFare f =
      (if f ≤ 7.91 then 0 else if f ≤ 14.454 then 1
       else if f ≤ 31 then 2 else 3) ∧
    mapFare 7.91 = 0 ∧
    mapAge a =
      (if a ≤ 16 then 0 else if a ≤ 32 then 1 else if a ≤ 48 then 2
       else if a ≤ 64 then 3 else 4) := by
  refine ⟨?_, ?_, ?_⟩
  · by_cases h1 : f ≤ 7.91
    · simp [mapFare, h1] <;> norm_num
    · by_cases h2 : f ≤ 14.454
      · simp [mapFare, h1, h2, not_le.mp h1] <;> norm_num
      · by_cases h3 : f ≤ 31
        · simp [mapFare, h1, h2, h3, not_le.mp h1, not_le.mp h2] <;>
            norm_num
        · simp [mapFare, h1, h2, h3, not_le.mp h1, not_le.mp h2,
            not_le.mp h3] <;> norm_num
  · simp only [mapFare]
    norm_num
  · by_cases h1 : a ≤ 16
    · simp [mapAge, h1] <;> norm_num
    · by_cases h2 : a ≤ 32
      · simp [mapAge, h1, h2, not_le.mp h1] <;> norm_num
      · by_cases h3 : a ≤ 48
        · simp [mapAge, h1, h2, h3, not_le.mp h1, not_le.mp h2] <;>
            norm_num
        · by_cases h4 : a ≤ 64
          · simp [mapAge, h1, h2, h3, h4, not_le.mp h1, not_le.mp h2,
              not_le.mp h3] <;> norm_num
          · simp [mapAge, h1, h2, h3, h4, not_le.mp h1, not_le.mp h2,
              not_le.mp h3, not_le.mp h4] <;> norm_num

/-- C3: the five canonical titles map to codes 1-5 (Mr 1, Miss 2, Mrs 3,
Master 4, Rare 5), and any other title — including the empty string
produced when the regex fails, and a missing title — maps to code 0
(`.map` gives NaN, `.fillna(0)` turns it into 0) instead of failing. -/
theorem title_code_mapping (s : String)
    (h : s ∉ ["Mr", "Miss", "Mrs", "Master", "Rare"]) :
    titleCode (some "Mr") = 1 ∧ titleCode (some "Miss") = 2 ∧
    titleCode (some "Mrs") = 3 ∧ titleCode (some "Master") = 4 ∧
    titleCode (some "Rare") = 5 ∧ titleCode (some "") = 0 ∧
    titleCode (some s) = 0 ∧ titleCode none = 0 := by
  simp only [List.mem_cons, List.not_mem_nil, or_false, not_or] at h
  obtain ⟨h1, h2, h3, h4, h5⟩ := h
  refine ⟨rfl, rfl, rfl, rfl, rfl, rfl, ?_, rfl⟩
  simp [titleCode, title_mapping, h1, h2, h3, h4, h5]

/-- Witness for `title_code_mapping` at the unknown title "Dona". -/
theorem title_code_mapping_witness :
    ("Dona" ∉ ["Mr", "Miss", "Mrs", "Master", "Rare"]) ∧
    titleCode (some "Dona") = 0 :=
  ⟨by decide, (title_code_mapping "Dona" (by decide)).2.2.2.2.2.2.1⟩

/-- C6: the eleven listed rare titles (including "Dr" and "Major") all
map to "Rare", "Mlle" and "Ms" map to "Miss", "Mme" maps to "Mrs", and
any other title is left unchanged by the four `.replace` calls. -/
theorem rare_title_grouping (t s : String) (ht : t ∈ rareTitles)
    (hs1 : s ∉ rareTitles) (hs2 : s ≠ "Mlle") (hs3 : s ≠ "Ms")
    (hs4 : s ≠ "Mme") :
    groupTitle t = "Rare" ∧ groupTitle "Dr" = "Rare" ∧
    groupTitle "Major" = "Rare" ∧ groupTitle "Mlle" = "Miss" ∧
    groupTitle "Ms" = "Miss" ∧ groupTitle "Mme" = "Mrs" ∧
    groupTitle s = s := by
  refine ⟨?_, rfl, rfl, rfl, rfl, rfl, ?_⟩
  · simp [groupTitle, ht]
  · simp [groupTitle, hs1, hs2, hs3, hs4]

/-- Witness for `rare_title_grouping` at "Dr" (rare) and "Mr" (kept). -/
theorem rare_title_grouping_witness :
    "Dr" ∈ rareTitles ∧ "Mr" ∉ rareTitles ∧ "Mr" ≠ "Mlle" ∧
    "Mr" ≠ "Ms" ∧ "Mr" ≠ "Mme" ∧ groupTitle "Dr" = "Rare" ∧
    groupTitle "Mr" = "Mr" :=
  ⟨by decide, by decide, by decide, by decide, by decide,
    (rare_title_grouping "Dr" "Mr" (by decide) (by decide) (by decide)
      (by decide) (by decide)).1,
    (rare_title_grouping "Dr" "Mr" (by decide) (by decide) (by decide)
      (by decide) (by decide)).2.2.2.2.2.2⟩

theorem searchTitle_eq_none (l : List Char) (h : hasTitlePattern l = false) :
    searchTitle l = none := by
  induction l with
  | nil => rfl
  | cons c rest ih =>
    rw [hasTitlePattern] at h
    rw [Bool.or_eq_false_iff] at h
    rw [searchTitle, if_neg (by simp [h.1]), ih h.2]

/-- C7: title extraction returns the letter run of the first
"space, letters, period" occurrence — on "Braund, Mr. Owen Harris" it
returns "Mr" — and on any name containing no such occurrence it returns
the empty string rather than failing. -/
theorem title_extraction (name : String)
    (h : hasTitlePattern name.data = false) :
    get_title "Braund, Mr. Owen Harris" = "Mr" ∧ get_title name = "" := by
  refine ⟨rfl, ?_⟩
  unfold get_title
  rw [searchTitle_eq_none name.data h]
  rfl

/-- Witness for `title_extraction` at the pattern-free name
"John Smith". -/
theorem title_extraction_witness :
    hasTitlePattern ("John Smith").data = false ∧
    get_title "John Smith" = "" :=
  ⟨by decide, (title_extraction "John Smith" (by decide)).2⟩

end Datmo

namespace Datmo

/-- A concrete passenger record used to instantiate hypotheses. -/
def sampleRow : Row :=
  { passengerId := 1, survived := some 0, pclass := 3,
    name := "Braund, Mr. Owen Harris", sex := "male", age := some 22,
    sibsp := 1, parch := 0, ticket := "A/5 21171", fare := some 7.25,
    cabin := none, embarked := some "S" }

/-- C4: after the FamilySize and IsAlone cells, every row of any dataset
satisfies FamilySize = SibSp + Parch + 1, IsAlone = 1 iff
FamilySize = 1, and IsAlone = 0 otherwise. -/
theorem family_size_is_alone (rows : List Row) (r : Row)
    (h : r ∈ stepIsAlone (stepFamilySize rows)) :
    r.familySize = some (r.sibsp + r.parch + 1) ∧
    (r.isAlone = some 1 ↔ r.familySize = some 1) ∧
    (r.familySize ≠ some 1 → r.isAlone = some 0) := by
  simp only [stepIsAlone, stepFamilySize, List.map_map, List.mem_map,
    Function.comp] at h
  obtain ⟨r0, hr0, rfl⟩ := h
  refine ⟨rfl, ?_, ?_⟩
  · by_cases hfs : famSize r0.sibsp r0.parch = 1 <;>
      simp [hfs, famSize]
  · intro hne
    by_cases hfs : famSize r0.sibsp r0.parch = 1
    · exact absurd (by simp [hfs]) hne
    · simp [hfs]

/-- Witness for `family_size_is_alone` at a one-row dataset. -/
theorem family_size_is_alone_witness :
    ({ sampleRow with familySize := some 2, isAlone := some 0 } ∈
      stepIsAlone (stepFamilySize [sampleRow])) ∧
    ({ sampleRow with familySize := some 2, isAlone := some 0 } : Row).familySize
      = some 2 ∧
    ({ sampleRow with familySize := some 2, isAlone := some 0 } : Row).isAlone
      = some 0 := by
  have hmem : ({ sampleRow with familySize := some 2, isAlone := some 0 } ∈
      stepIsAlone (stepFamilySize [sampleRow])) :=
    List.mem_singleton.mpr rfl
  exact ⟨hmem, (family_size_is_alone [sampleRow] _ hmem).1,
    (family_size_is_alone [sampleRow] _ hmem).2.2 (by decide)⟩

/-- C8: the sex, port and title encodings agree with their fixed code
tables, are injective on their defined domains, and composing each with
its decoding table recovers the original category. -/
theorem encoding_roundtrip (a b e1 e2 t1 t2 : String)
    (ha : a ∈ ["female", "male"]) (hb : b ∈ ["female", "male"])
    (hab : sexMap a = sexMap b)
    (he1 : e1 ∈ ["S", "C", "Q"]) (he2 : e2 ∈ ["S", "C", "Q"])
    (hee : embarkedMap e1 = embarkedMap e2)
    (ht1 : t1 ∈ ["Mr", "Miss", "Mrs", "Master", "Rare"])
    (ht2 : t2 ∈ ["Mr", "Miss", "Mrs", "Master", "Rare"])
    (htt : title_mapping t1 = title_mapping t2) :
    sexMap "female" = some 0 ∧ sexMap "male" = some 1 ∧
    embarkedMap "S" = some 0 ∧ embarkedMap "C" = some 1 ∧
    embarkedMap "Q" = some 2 ∧
    (sexMap a).bind sexDecode = some a ∧ a = b ∧
    (embarkedMap e1).bind embarkedDecode = some e1 ∧ e1 = e2 ∧
    (title_mapping t1).bind titleDecode = some t1 ∧ t1 = t2 := by
  refine ⟨rfl, rfl, rfl, rfl, rfl, ?_, ?_, ?_, ?_, ?_, ?_⟩
  · fin_cases ha <;> rfl
  · fin_cases ha <;> fin_cases hb <;> revert hab <;> decide
  · fin_cases he1 <;> rfl
  · fin_cases he1 <;> fin_cases he2 <;> revert hee <;> decide
  · fin_cases ht1 <;> rfl
  · fin_cases ht1 <;> fin_cases ht2 <;> revert htt <;> decide

/-- Witness for `encoding_roundtrip` at female / S / Mr. -/
theorem encoding_roundtrip_witness :
    ("female" ∈ ["female", "male"]) ∧ ("S" ∈ ["S", "C", "Q"]) ∧
    ("Mr" ∈ ["Mr", "Miss", "Mrs", "Master", "Rare"]) ∧
    (sexMap "female").bind sexDecode = some "female" ∧
    (embarkedMap "S").bind embarkedDecode = some "S" ∧
    (title_mapping "Mr").bind titleDecode = some "Mr" :=
  ⟨by decide, by decide, by decide,
    (encoding_roundtrip "female" "female" "S" "S" "Mr" "Mr" (by decide)
      (by decide) rfl (by decide) (by decide) rfl (by decide) (by decide)
      rfl).2.2.2.2.2.1,
    (encoding_roundtrip "female" "female" "S" "S" "Mr" "Mr" (by decide)
      (by decide) rfl (by decide) (by decide) rfl (by decide) (by decide)
      rfl).2.2.2.2.2.2.2.1,
    (encoding_roundtrip "female" "female" "S" "S" "Mr" "Mr" (by decide)
      (by decide) rfl (by decide) (by decide) rfl (by decide) (by decide)
      rfl).2.2.2.2.2.2.2.2.2.1⟩

/-- C10: in the second feature-selection variant, FarePerPerson divides
by FamilySize + 1; FamilySize = SibSp + Parch + 1 is at least 1, so the
divisor is at least 2 and in particular never zero, and the division is
exact: multiplying back by the divisor recovers the fare. -/
theorem fare_per_person_safe (sibsp parch : ℕ) (fare : ℚ) :
    1 ≤ famSize sibsp parch ∧
    2 ≤ famSize sibsp parch + 1 ∧
    ((famSize sibsp parch : ℚ) + 1) ≠ 0 ∧
    farePerPerson fare (famSize sibsp parch) *
      ((famSize sibsp parch : ℚ) + 1) = fare := by
  have hpos : (0 : ℚ) < (famSize sibsp parch : ℚ) + 1 := by
    positivity
  refine ⟨by simp [famSize], by simp [famSize], ne_of_gt hpos, ?_⟩
  rw [farePerPerson, div_mul_cancel₀ fare (ne_of_gt hpos)]

end Datmo

namespace Datmo

/-- A four-row dataset whose non-missing ages have mean 41/2 and sample
standard deviation exactly 7. -/
def ageRows : List Row :=
  [{ sampleRow with age := some 28.5 }, { sampleRow with age := some 15.5 },
   { sampleRow with age := some 17.5 }, { sampleRow with age := none }]

theorem ageRows_nonMissing : nonMissingAges ageRows = [28.5, 15.5, 17.5] :=
  rfl

theorem ageRows_mean : qMean (nonMissingAges ageRows) = 41 / 2 := by
  rw [ageRows_nonMissing]
  norm_num [qMean]

theorem ageRows_var : sampleVar (nonMissingAges ageRows) = 49 := by
  rw [ageRows_nonMissing]
  norm_num [sampleVar, qMean]

theorem ratTrunc_of_nonneg (q : ℚ) (h : 0 ≤ q) : ratTrunc q = ⌊q⌋ :=
  if_pos h

theorem ratTrunc_lo13 : ratTrunc (41 / 2 - 7) = 13 := by
  rw [ratTrunc_of_nonneg _ (by norm_num), Int.floor_eq_iff] <;> norm_num

theorem ratTrunc_hi27 : ratTrunc (41 / 2 + 7) = 27 := by
  rw [ratTrunc_of_nonneg _ (by norm_num), Int.floor_eq_iff] <;> norm_num

theorem ageRows_mem13 :
    ({ sampleRow with age := some ((13 : ℤ) : ℚ) } ∈
      imputeAges (fun _ => 13) ageRows) := by
  have hexp : imputeAges (fun _ => 13) ageRows =
      [{ sampleRow with age := some 28.5 },
       { sampleRow with age := some 15.5 },
       { sampleRow with age := some 17.5 },
       { sampleRow with age := some ((13 : ℤ) : ℚ) }] := rfl
  rw [hexp]
  simp

/-- C5 counterexample: for the dataset `ageRows` the non-missing ages
have mean 41/2 and standard deviation 7 (certified by 7 ≥ 0 and
7² = sample variance), yet 13 is in the support of
`np.random.randint(mean - std, mean + std)` — so a run of the notebook
can impute the age 13 — and 13 lies strictly below mean - std = 13.5,
outside the closed interval the claim asserts. -/
theorem age_impute_interval_counterexample :
    (0 : ℚ) ≤ 7 ∧
    (7 : ℚ) ^ 2 = sampleVar (nonMissingAges ageRows) ∧
    randintMem (qMean (nonMissingAges ageRows) - 7)
      (qMean (nonMissingAges ageRows) + 7) 13 ∧
    ({ sampleRow with age := some ((13 : ℤ) : ℚ) } ∈
      imputeAges (fun _ => 13) ageRows) ∧
    ({ sampleRow with age := some ((13 : ℤ) : ℚ) } : Row).age
      = some ((13 : ℤ) : ℚ) ∧
    ¬ (qMean (nonMissingAges ageRows) - 7 ≤ ((13 : ℤ) : ℚ)) := by
  refine ⟨by norm_num, by rw [ageRows_var]; norm_num, ?_, ageRows_mem13,
    rfl, ?_⟩
  · rw [randintMem, ageRows_mean, ratTrunc_lo13, ratTrunc_hi27]
    omega
  · rw [ageRows_mean]
    push_cast
    norm_num

theorem randint_bounds (lo hi : ℚ) (k : ℤ) (h0 : 0 ≤ lo)
    (hk : randintMem lo hi k) : lo - 1 < (k : ℚ) ∧ (k : ℚ) < hi := by
  obtain ⟨hlo, hhi⟩ := hk
  rw [ratTrunc_of_nonneg lo h0] at hlo
  have h1 : lo - 1 < (⌊lo⌋ : ℚ) := Int.sub_one_lt_floor lo
  have h2 : ((⌊lo⌋ : ℤ) : ℚ) ≤ (k : ℚ) := by exact_mod_cast hlo
  have hfl0 : 0 ≤ ⌊lo⌋ := Int.floor_nonneg.mpr h0
  have hhi0 : 0 ≤ hi := by
    by_contra hneg
    push_neg at hneg
    rw [ratTrunc, if_neg (not_le.mpr hneg)] at hhi
    have hc : ⌈hi⌉ ≤ 0 := Int.ceil_le.mpr (by exact_mod_cast hneg.le)
    omega
  rw [ratTrunc_of_nonneg hi hhi0] at hhi
  have h3 : (k : ℚ) + 1 ≤ ((⌊hi⌋ : ℤ) : ℚ) := by exact_mod_cast hhi
  have h4 : ((⌊hi⌋ : ℤ) : ℚ) ≤ hi := Int.floor_le hi
  constructor <;> linarith

theorem fillAges_age_mem (rnd : ℕ → ℤ) (rows : List Row) (k : ℕ) (r : Row)
    (a : ℚ) (hr : r ∈ fillAges rnd k rows) (ha : r.age = some a) :
    (∃ j, a = ((rnd j : ℤ) : ℚ)) ∨ a ∈ nonMissingAges rows := by
  induction rows generalizing k with
  | nil => simp [fillAges] at hr
  | cons r0 rs ih =>
    cases h0 : r0.age with
    | some a0 =>
      have hexp : fillAges rnd k (r0 :: rs) = r0 :: fillAges rnd k rs := by
        simp [fillAges, h0]
      rw [hexp] at hr
      rcases List.mem_cons.mp hr with rfl | htail
      · right
        have haa : a0 = a := Option.some.inj (h0.symm.trans ha)
        simp [nonMissingAges, List.filterMap_cons, h0, haa]
      · rcases ih k htail with hleft | hright
        · exact Or.inl hleft
        · right
          simp [nonMissingAges, List.filterMap_cons, h0]
          right
          simpa [nonMissingAges] using hright
    | none =>
      have hexp : fillAges rnd k (r0 :: rs) =
          { r0 with age := some ((rnd k : ℤ) : ℚ) } ::
            fillAges rnd (k + 1) rs := by
        simp [fillAges, h0]
      rw [hexp] at hr
      rcases List.mem_cons.mp hr with rfl | htail
      · left
        exact ⟨k, (Option.some.inj ha).symm⟩
      · rcases ih (k + 1) htail with hleft | hright
        · exact Or.inl hleft
        · right
          simp [nonMissingAges, List.filterMap_cons, h0]
          simpa [nonMissingAges] using hright

/-- C5 (amended): the age imputation fills every missing age with an
integer draw of `np.random.randint(mean - std, mean + std)`, whose
support is the half-open truncated range
[trunc(mean - std), trunc(mean + std)); hence (for a nonnegative lower
bound) every imputed age lies strictly inside
(mean - std - 1, mean + std) — it can undershoot mean - std by up to
one and never attains mean + std — while every non-imputed age of the
output belongs to the original non-missing ages. -/
theorem age_impute_amended (rows : List Row) (rnd : ℕ → ℤ) (lo hi : ℚ)
    (r : Row) (a : ℚ) (h0 : 0 ≤ lo) (hdraws : drawsIn rnd lo hi)
    (hr : r ∈ imputeAges rnd rows) (ha : r.age = some a) :
    (lo - 1 < a ∧ a < hi) ∨ a ∈ nonMissingAges rows := by
  rcases fillAges_age_mem rnd rows 0 r a hr ha with ⟨j, rfl⟩ | h
  · exact Or.inl (randint_bounds lo hi (rnd j) h0 (hdraws j))
  · exact Or.inr h

/-- Witness for `age_impute_amended` on `ageRows` with the constant
draw 13 and bounds mean ± 7. -/
theorem age_impute_amended_witness :
    (0 : ℚ) ≤ qMean (nonMissingAges ageRows) - 7 ∧
    drawsIn (fun _ => 13) (qMean (nonMissingAges ageRows) - 7)
      (qMean (nonMissingAges ageRows) + 7) ∧
    ({ sampleRow with age := some ((13 : ℤ) : ℚ) } ∈
      imputeAges (fun _ => 13) ageRows) ∧
    ({ sampleRow with age := some ((13 : ℤ) : ℚ) } : Row).age
      = some ((13 : ℤ) : ℚ) ∧
    ((qMean (nonMissingAges ageRows) - 7 - 1 < ((13 : ℤ) : ℚ) ∧
        ((13 : ℤ) : ℚ) < qMean (nonMissingAges ageRows) + 7) ∨
      ((13 : ℤ) : ℚ) ∈ nonMissingAges ageRows) := by
  have h0 : (0 : ℚ) ≤ qMean (nonMissingAges ageRows) - 7 := by
    rw [ageRows_mean]; norm_num
  have hdraws : drawsIn (fun _ => 13)
      (qMean (nonMissingAges ageRows) - 7)
      (qMean (nonMissingAges ageRows) + 7) := by
    intro k
    show randintMem _ _ 13
    rw [randintMem, ageRows_mean, ratTrunc_lo13, ratTrunc_hi27]
    omega
  exact ⟨h0, hdraws, ageRows_mem13, rfl,
    age_impute_amended ageRows (fun _ => 13) _ _ _ _ h0 hdraws
      ageRows_mem13 rfl⟩

end Datmo

namespace Datmo

/-- Invariant of a row before the age imputation: its categorical values
are inside the mapping domains and fare and is-alone are present. -/
def PreGood (r : Row) : Prop :=
  (sexMap r.sex).isSome ∧ (r.embarked.bind embarkedMap).isSome ∧
    r.fare.isSome ∧ r.isAlone.isSome

/-- Invariant of a row at hand-off: additionally the age is present. -/
def GoodRow (r : Row) : Prop :=
  PreGood r ∧ r.age.isSome

theorem finalizeRow_isSome (r : Row) (h : GoodRow r) :
    (finalizeRow r).isSome := by
  obtain ⟨⟨h1, h2, h3, h4⟩, h5⟩ := h
  obtain ⟨sx, hsx⟩ := Option.isSome_iff_exists.mp h1
  obtain ⟨em, hem⟩ := Option.isSome_iff_exists.mp h2
  obtain ⟨f, hf⟩ := Option.isSome_iff_exists.mp h3
  obtain ⟨ia, hia⟩ := Option.isSome_iff_exists.mp h4
  obtain ⟨a, ha⟩ := Option.isSome_iff_exists.mp h5
  rw [finalizeRow, hsx, hem, hf, hia, ha]
  rfl

theorem fillAges_length (rnd : ℕ → ℤ) (k : ℕ) (rows : List Row) :
    (fillAges rnd k rows).length = rows.length := by
  induction rows generalizing k with
  | nil => rfl
  | cons r0 rs ih =>
    cases h0 : r0.age with
    | some a0 => simp [fillAges, h0, ih]
    | none => simp [fillAges, h0, ih]

theorem fillAges_good (rnd : ℕ → ℤ) (k : ℕ) (rows : List Row)
    (h : ∀ x ∈ rows, PreGood x) :
    ∀ r ∈ fillAges rnd k rows, PreGood r ∧ r.age.isSome := by
  induction rows generalizing k with
  | nil => simp [fillAges]
  | cons r0 rs ih =>
    intro r hr
    have h0good : PreGood r0 := h r0 (List.mem_cons_self r0 rs)
    have htail : ∀ x ∈ rs, PreGood x :=
      fun x hx => h x (List.mem_cons_of_mem r0 hx)
    cases h0 : r0.age with
    | some a0 =>
      have hexp : fillAges rnd k (r0 :: rs) = r0 :: fillAges rnd k rs := by
        simp [fillAges, h0]
      rw [hexp] at hr
      rcases List.mem_cons.mp hr with rfl | hmem
      · exact ⟨h0good, by simp [h0]⟩
      · exact ih k htail r hmem
    | none =>
      have hexp : fillAges rnd k (r0 :: rs) =
          { r0 with age := some ((rnd k : ℤ) : ℚ) } ::
            fillAges rnd (k + 1) rs := by
        simp [fillAges, h0]
      rw [hexp] at hr
      rcases List.mem_cons.mp hr with rfl | hmem
      · exact ⟨h0good, rfl⟩
      · exact ih (k + 1) htail r hmem

theorem staged_good (median : ℚ) (rnd : ℕ → ℤ) (rows : List Row)
    (hsex : ∀ x ∈ rows, x.sex = "female" ∨ x.sex = "male")
    (hemb : ∀ x ∈ rows, ∀ e, x.embarked = some e →
      e = "S" ∨ e = "C" ∨ e = "Q") :
    ∀ r ∈ stagedRows median rnd rows, GoodRow r := by
  have hpre : ∀ r ∈ stepFareFill median (stepEmbarked (stepIsAlone
      (stepFamilySize rows))), PreGood r := by
    intro r hr
    simp only [stepFareFill, stepEmbarked, stepIsAlone, stepFamilySize,
      List.map_map, List.mem_map, Function.comp] at hr
    obtain ⟨r0, hr0, rfl⟩ := hr
    refine ⟨?_, ?_, rfl, rfl⟩
    · rcases hsex r0 hr0 with h | h <;> simp [sexMap, h]
    · cases h0 : r0.embarked with
      | none => simp [h0, Option.getD, embarkedMap]
      | some e =>
        rcases hemb r0 hr0 e h0 with h | h | h <;>
          simp [h0, Option.getD, embarkedMap, h]
  have hfill : ∀ r ∈ imputeAges rnd (stepFareFill median (stepEmbarked
      (stepIsAlone (stepFamilySize rows)))), PreGood r ∧ r.age.isSome :=
    fillAges_good rnd 0 _ hpre
  intro r hr
  simp only [stagedRows, stepTitleGroup, stepTitleExtract, stepAgeInt,
    List.map_map, List.mem_map, Function.comp] at hr
  obtain ⟨r1, hr1, rfl⟩ := hr
  obtain ⟨⟨g1, g2, g3, g4⟩, g5⟩ := hfill r1 hr1
  exact ⟨⟨g1, g2, g3, g4⟩, by simp [Option.isSome_map, g5]⟩

theorem mapRows_length (l : List Row)
    (h : ∀ r ∈ l, (finalizeRow r).isSome) :
    (mapRows l).map List.length = some l.length := by
  induction l with
  | nil => rfl
  | cons r rs ih =>
    obtain ⟨fr, hfr⟩ :=
      Option.isSome_iff_exists.mp (h r (List.mem_cons_self r rs))
    have hrs := ih (fun x hx => h x (List.mem_cons_of_mem r hx))
    obtain ⟨frs, hmr, hlen⟩ := Option.map_eq_some'.mp hrs
    simp [mapRows, hfr, hmr, hlen]

/-- C9: no cleaning cell drops a row — family size, is-alone, the
embarked/fare fills, the age imputation, the title cells and the mapping
loop all preserve the row count — and, provided the raw categorical
values respect the data contract, every retained column is fully imputed
at hand-off: the row-wise conversion to the numeric `FinalRow` matrix
(whose fields are total) succeeds on all rows. -/
theorem cleaning_preserves_rows (median : ℚ) (rnd : ℕ → ℤ)
    (rows : List Row)
    (hsex : rows.all (fun r => r.sex == "female" || r.sex == "male") = true)
    (hemb : rows.all (fun r => r.embarked.elim true
      (fun e => e == "S" || e == "C" || e == "Q")) = true) :
    (stepFamilySize rows).length = rows.length ∧
    (stepIsAlone (stepFamilySize rows)).length = rows.length ∧
    (stepEmbarked (stepIsAlone (stepFamilySize rows))).length
      = rows.length ∧
    (stepFareFill median (stepEmbarked (stepIsAlone
      (stepFamilySize rows)))).length = rows.length ∧
    (imputeAges rnd (stepFareFill median (stepEmbarked (stepIsAlone
      (stepFamilySize rows))))).length = rows.length ∧
    (stagedRows median rnd rows).length = rows.length ∧
    (mapRows (stagedRows median rnd rows)).map List.length
      = some rows.length := by
  have hsex' : ∀ x ∈ rows, x.sex = "female" ∨ x.sex = "male" := by
    intro x hx
    have := List.all_eq_true.mp hsex x hx
    simpa [Bool.or_eq_true, beq_iff_eq] using this
  have hemb' : ∀ x ∈ rows, ∀ e, x.embarked = some e →
      e = "S" ∨ e = "C" ∨ e = "Q" := by
    intro x hx e he
    have := List.all_eq_true.mp hemb x hx
    rw [he] at this
    have h2 : (e = "S" ∨ e = "C") ∨ e = "Q" := by
      simpa [Option.elim, Bool.or_eq_true, beq_iff_eq] using this
    tauto
  have hlen5 : (imputeAges rnd (stepFareFill median (stepEmbarked
      (stepIsAlone (stepFamilySize rows))))).length = rows.length := by
    rw [imputeAges, fillAges_length]
    simp [stepFareFill, stepEmbarked, stepIsAlone, stepFamilySize]
  have hlen6 : (stagedRows median rnd rows).length = rows.length := by
    rw [stagedRows, stepTitleGroup, stepTitleExtract, stepAgeInt]
    simp only [List.length_map]
    exact hlen5
  refine ⟨by simp [stepFamilySize], ?_, ?_, ?_, hlen5, hlen6, ?_⟩
  · simp [stepIsAlone, stepFamilySize]
  · simp [stepEmbarked, stepIsAlone, stepFamilySize]
  · simp [stepFareFill, stepEmbarked, stepIsAlone, stepFamilySize]
  · rw [mapRows_length _ (fun r hr =>
      finalizeRow_isSome r (staged_good median rnd rows hsex' hemb' r hr))]
    rw [hlen6]

/-- Witness for `cleaning_preserves_rows` on a one-row dataset. -/
theorem cleaning_preserves_rows_witness :
    ([sampleRow].all
      (fun r => r.sex == "female" || r.sex == "male") = true) ∧
    ([sampleRow].all (fun r => r.embarked.elim true
      (fun e => e == "S" || e == "C" || e == "Q")) = true) ∧
    (stagedRows 8 (fun _ => 13) [sampleRow]).length = 1 ∧
    (mapRows (stagedRows 8 (fun _ => 13) [sampleRow])).map List.length
      = some 1 :=
  ⟨by decide, by decide,
    (cleaning_preserves_rows 8 (fun _ => 13) [sampleRow] (by decide)
      (by decide)).2.2.2.2.2.1,
    (cleaning_preserves_rows 8 (fun _ => 13) [sampleRow] (by decide)
      (by decide)).2.2.2.2.2.2⟩

end Datmo
